import Mathlib

set_option maxRecDepth 8000

/-!
Verification development for the database-Api gateway repository.

The definitions below are a shallow embedding of the repository's quota
ledger (`app/database/auth_operations.py`), token routes
(`app/auth/routes.py`), authentication middleware
(`app/auth/middleware.py`), connection-pool registry (`app/utils/pool.py`)
and concurrency limiter (`app/utils/concurrency.py`).

Conventions of the embedding:
* PostgreSQL rows become Lean structures; nullable integer columns become
  `Option Int`.
* SQL statements over the `api_tokens` / `token_usage_logs` tables become
  pure functions on an explicit `LedgerState`.
* psycopg2 transactions are modelled with explicit commit/rollback: the
  visible state changes only when the transaction commits; every failure
  path returns the unchanged state.  Failure of infrastructure steps
  (obtaining a connection, committing) is injected through boolean oracle
  fields, because the Python code observes those failures only as caught
  exceptions.
* Wall-clock timestamp columns (`created_at` / `updated_at`) are not
  modelled; no claim under verification mentions them.  The pool
  registry's `last_used` timestamp is modelled with an explicit `now`
  argument standing for `time.time()`.
-/

namespace DatabaseApi

/-- Row of the `api_tokens` table (see `init_auth_tables`). -/
structure TokenRecord where
  token_id : Nat
  access_token : String
  email : String
  ws_id : String
  token_type : String
  remaining_calls : Option Int
  total_calls : Option Int
  is_active : Bool
deriving Repr, DecidableEq

/-- Row of the `token_usage_logs` table. -/
structure UsageLogEntry where
  log_id : Nat
  token_id : Nat
  ws_id : String
  operation_type : String
  target_database : String
  target_collection : String
  status : String
  request_details : Option String
deriving Repr, DecidableEq

/-- The authentication database: both tables plus the SERIAL counters that
generate `token_id` and `log_id`. -/
structure LedgerState where
  tokens : List TokenRecord
  logs : List UsageLogEntry
  nextTokenId : Nat
  nextLogId : Nat
deriving Repr, DecidableEq

/-- `SELECT ... FROM api_tokens WHERE token_id = %s` (token_id is the
primary key, so the first match is the row). -/
def lookupToken (ts : List TokenRecord) (tid : Nat) : Option TokenRecord :=
  ts.find? (fun t => t.token_id == tid)

/-- `SELECT ... FROM api_tokens WHERE ws_id = %s` (ws_id is UNIQUE). -/
def lookupTokenByWs (ts : List TokenRecord) (ws : String) : Option TokenRecord :=
  ts.find? (fun t => t.ws_id == ws)

/-- `UPDATE api_tokens SET ... WHERE token_id = %s`: every row matching the
id is mapped through the row transformer, others are untouched. -/
def updateRows (ts : List TokenRecord) (tid : Nat) (f : TokenRecord → TokenRecord) :
    List TokenRecord :=
  ts.map (fun t => if t.token_id == tid then f t else t)

/-- `UPDATE api_tokens SET ... WHERE ws_id = %s`. -/
def updateRowsWs (ts : List TokenRecord) (ws : String) (f : TokenRecord → TokenRecord) :
    List TokenRecord :=
  ts.map (fun t => if t.ws_id == ws then f t else t)

/-- SQL `GREATEST(remaining_calls - 1, 0)`.  PostgreSQL's `GREATEST`
ignores NULL arguments when a non-NULL argument is present, so a NULL
`remaining_calls` (for which `NULL - 1` is NULL) yields `0`. -/
def decClamp : Option Int → Option Int
  | none => some 0
  | some r => some (max (r - 1) 0)

/-- The row transformer of the consume decrement:
`SET remaining_calls = GREATEST(remaining_calls - 1, 0)`. -/
def decRow (t : TokenRecord) : TokenRecord :=
  { t with remaining_calls := decClamp t.remaining_calls }

/-- Arguments of one `update_token_usage` call, together with the two
infrastructure oracles: `connOk` is whether `postgresql_pool.get_connection`
succeeds, `commitOk` is whether the UPDATE/INSERT/COMMIT sequence of the
transaction succeeds (any exception there triggers `conn.rollback()`). -/
structure ConsumeCall where
  token_id : Nat
  ws_id : String
  operation_type : String
  target_database : String
  target_collection : Option String
  status : String
  request_details : Option String
  connOk : Bool
  commitOk : Bool
deriving Repr, DecidableEq

/-- The usage-log row inserted by `update_token_usage` (step 3 of the
transaction).  `target_collection or ""` maps a missing collection to the
empty string. -/
def consumeEntry (st : LedgerState) (c : ConsumeCall) : UsageLogEntry :=
  { log_id := st.nextLogId
    token_id := c.token_id
    ws_id := c.ws_id
    operation_type := c.operation_type
    target_database := c.target_database
    target_collection := c.target_collection.getD ""
    status := c.status
    request_details := c.request_details }

/-- `update_token_usage` (auth_operations.py): inside one transaction,
`SELECT ... FOR UPDATE` the token row, decrement `remaining_calls` with a
floor of 0 when the token is `limited` (no UPDATE is issued otherwise),
insert one usage-log row, then commit.  Any failure (connection error,
missing token, transaction error) rolls back and returns `false` with the
state unchanged. -/
def update_token_usage (st : LedgerState) (c : ConsumeCall) : Bool × LedgerState :=
  if !c.connOk then (false, st)
  else
    match lookupToken st.tokens c.token_id with
    | none => (false, st)
    | some tok =>
      let tokens' :=
        if tok.token_type == "limited" then
          updateRows st.tokens c.token_id decRow
        else st.tokens
      let st' : LedgerState :=
        { st with
            tokens := tokens'
            logs := st.logs ++ [consumeEntry st c]
            nextLogId := st.nextLogId + 1 }
      if c.commitOk then (true, st') else (false, st)

/-- A sequence of `update_token_usage` calls, in the linearization order
imposed by the `FOR UPDATE` row lock; returns the result of every call and
the final ledger state. -/
def runConsumes (st : LedgerState) (ops : List ConsumeCall) :
    List Bool × LedgerState :=
  match ops with
  | [] => ([], st)
  | c :: rest =>
    let r := update_token_usage st c
    let rr := runConsumes r.2 rest
    (r.1 :: rr.1, rr.2)

/-- Number of usage-log rows referencing a given token. -/
def logCountFor (st : LedgerState) (tid : Nat) : Nat :=
  st.logs.countP (fun e => e.token_id == tid)

/-- Python truthiness of an `Optional[int]`: `None` and `0` are falsy.
This is what `if not calls_value ...` tests in `update_auth_token` /
`update_token`. -/
def pyFalsyOptInt : Option Int → Bool
  | none => true
  | some v => v == 0

/-- Token summary as returned by the create/update routes
(`TokenInfoResponse`); the update route omits the access token. -/
structure TokenSummary where
  token_id : Nat
  access_token : Option String
  ws_id : String
  token_type : String
  remaining_calls : Option Int
  total_calls : Option Int
deriving Repr, DecidableEq

/-- Summary of a row for the create route (includes the access token). -/
def createSummary (t : TokenRecord) : TokenSummary :=
  { token_id := t.token_id, access_token := some t.access_token, ws_id := t.ws_id
    token_type := t.token_type, remaining_calls := t.remaining_calls
    total_calls := t.total_calls }

/-- Summary of a row for the update route (no access token). -/
def updateSummary (t : TokenRecord) : TokenSummary :=
  { token_id := t.token_id, access_token := none, ws_id := t.ws_id
    token_type := t.token_type, remaining_calls := t.remaining_calls
    total_calls := t.total_calls }

/-- `create_auth_token` / the create route: reject an existing `ws_id`;
otherwise insert a row whose counters are NULL for `unlimited` and are the
caller-supplied `total_calls` otherwise (no validation of `total_calls`). -/
def create_auth_token (st : LedgerState) (email ws_id token_type access_token : String)
    (total_calls : Option Int) : Bool × Option TokenSummary × LedgerState :=
  match lookupTokenByWs st.tokens ws_id with
  | some _ => (false, none, st)
  | none =>
    let is_unlimited := token_type == "unlimited"
    let remaining_calls := if is_unlimited then none else total_calls
    let total_calls_value := if is_unlimited then none else total_calls
    let tok : TokenRecord :=
      { token_id := st.nextTokenId, access_token := access_token, email := email
        ws_id := ws_id, token_type := token_type
        remaining_calls := remaining_calls, total_calls := total_calls_value
        is_active := true }
    (true, some (createSummary tok),
      { st with tokens := st.tokens ++ [tok], nextTokenId := st.nextTokenId + 1 })

/-- Row transformer of the `unlimited` update operation. -/
def clearedUnlimited (t : TokenRecord) : TokenRecord :=
  { t with token_type := "unlimited", remaining_calls := none, total_calls := none }

/-- Row transformer of the `add` update operation
(`COALESCE(remaining_calls, 0) + v`, same for `total_calls`). -/
def addCalls (v : Int) (t : TokenRecord) : TokenRecord :=
  { t with token_type := "limited"
           remaining_calls := some (t.remaining_calls.getD 0 + v)
           total_calls := some (t.total_calls.getD 0 + v) }

/-- Row transformer of the `set` update operation. -/
def setCalls (v : Int) (t : TokenRecord) : TokenRecord :=
  { t with token_type := "limited", remaining_calls := some v, total_calls := some v }

/-- `update_auth_token` / the update route.  Note the Python guards:
`add` rejects when `not calls_value or calls_value <= 0`, and `set`
rejects when `not calls_value or calls_value < 0` — so on both paths a
`calls_value` of 0 is rejected as falsy before the sign check runs. -/
def update_auth_token (st : LedgerState) (ws_id operation : String)
    (calls_value : Option Int) : Bool × Option TokenSummary × LedgerState :=
  match lookupTokenByWs st.tokens ws_id with
  | none => (false, none, st)
  | some tok =>
    if operation == "unlimited" then
      (true, some (updateSummary (clearedUnlimited tok)),
        { st with tokens := updateRowsWs st.tokens ws_id clearedUnlimited })
    else if operation == "add" then
      if pyFalsyOptInt calls_value || decide (calls_value.getD 0 ≤ 0) then
        (false, none, st)
      else
        (true, some (updateSummary (addCalls (calls_value.getD 0) tok)),
          { st with tokens := updateRowsWs st.tokens ws_id (addCalls (calls_value.getD 0)) })
    else if operation == "set" then
      if pyFalsyOptInt calls_value || decide (calls_value.getD 0 < 0) then
        (false, none, st)
      else
        (true, some (updateSummary (setCalls (calls_value.getD 0) tok)),
          { st with tokens := updateRowsWs st.tokens ws_id (setCalls (calls_value.getD 0)) })
    else (false, none, st)

/-- Outcome of the infrastructure steps of `validate_auth_token`:
either the connection and query work, or `get_connection` reports an
error, or an exception is raised somewhere in the body (both failure
shapes are caught and mapped to an invalid-token result). -/
inductive InfraOutcome where
  | ok
  | connError (msg : String)
  | raised (msg : String)
deriving Repr, DecidableEq

/-- `validate_auth_token`: look the access-token string up with
`is_active = TRUE`; every infrastructure failure is caught and reported as
`(False, None)`, i.e. as an invalid token. -/
def validate_auth_token (st : LedgerState) (access_token : String)
    (infra : InfraOutcome) : Bool × Option TokenRecord :=
  match infra with
  | .connError _ => (false, none)
  | .raised _ => (false, none)
  | .ok =>
    match st.tokens.find? (fun t => t.access_token == access_token && t.is_active) with
    | none => (false, none)
    | some t => (true, some t)

/-- The AccessToken type invariant of the specification, decidably:
`unlimited` rows have both counters NULL; `limited` rows have both
counters present with `0 ≤ remaining ≤ total`. -/
def tokenInvB (t : TokenRecord) : Bool :=
  (if t.token_type == "unlimited" then
    t.remaining_calls == none && t.total_calls == none
  else true) &&
  (if t.token_type == "limited" then
    match t.remaining_calls, t.total_calls with
    | some r, some tot => decide (0 ≤ r) && decide (r ≤ tot)
    | _, _ => false
  else true)

/-! Pool registry (`app/utils/pool.py`).  A pool is represented by its
identity (`pool_id`, the "shared internal identifier" of the spec) and the
`last_used` timestamp; the wall clock is an explicit `now` argument. -/

/-- Registry entry bookkeeping for one pool. -/
structure PoolInfo where
  pool_id : Nat
  last_used : Nat
deriving Repr, DecidableEq

/-- The `PostgreSQLConnectionPool` singleton's `_pools` dictionary plus a
counter supplying fresh pool identities. -/
structure PgRegistry where
  pools : List (String × PoolInfo)
  nextId : Nat
deriving Repr, DecidableEq

/-- The caller-supplied connection parameters of `get_connection`. -/
structure PgConnParams where
  host : String
  port : Nat
  database : String
  user : String
  password : String
deriving Repr, DecidableEq

/-- `pool_key = f"{host}:{port}:{database}:{user}"` — the password is not
part of the key. -/
def pg_pool_key (host : String) (port : Nat) (database user : String) : String :=
  host ++ ":" ++ toString port ++ ":" ++ database ++ ":" ++ user

/-- The pool key of a full parameter record. -/
def pgKeyOf (p : PgConnParams) : String :=
  pg_pool_key p.host p.port p.database p.user

/-- Dictionary lookup `self._pools[pool_key]`. -/
def lookupPool (ps : List (String × PoolInfo)) (k : String) : Option PoolInfo :=
  (ps.find? (fun e => e.1 == k)).map (fun e => e.2)

/-- `self._pools[pool_key]["last_used"] = time.time()`. -/
def touchPool (ps : List (String × PoolInfo)) (k : String) (now : Nat) :
    List (String × PoolInfo) :=
  ps.map (fun e => if e.1 == k then (e.1, { e.2 with last_used := now }) else e)

/-- `get_connection`: create the pool on first use of the key (`createOk`
is whether `ThreadedConnectionPool(...)` succeeds; a failed creation
caches nothing), refresh `last_used`, and hand out a connection from the
pool — modelled as the pool's identity, which is what pool-sharing makes
observable.  (`getconn` failure after a successful lookup is not
modelled; no claim under verification concerns pool exhaustion.) -/
def get_connection (st : PgRegistry) (now : Nat) (p : PgConnParams)
    (createOk : Bool) : Option Nat × PgRegistry :=
  let key := pgKeyOf p
  match lookupPool st.pools key with
  | some info =>
    (some info.pool_id, { st with pools := touchPool st.pools key now })
  | none =>
    if createOk then
      (some st.nextId,
        { pools := st.pools ++ [(key, { pool_id := st.nextId, last_used := now })]
          nextId := st.nextId + 1 })
    else (none, st)

/-- What `release_connection` does with the connection it was handed. -/
inductive ReleaseAction where
  | returnedToPool
  | closedDirectly
  | droppedNoop
deriving Repr, DecidableEq

/-- `release_connection`: if the key is still present, `putconn` the
connection back (refreshing `last_used`), closing it directly only when
`putconn` itself raises (`putconnOk = false`); if the key is absent — the
pool was already reaped — the `if pool_key in self._pools` guard has no
else branch, so nothing at all happens to the connection. -/
def release_connection (st : PgRegistry) (now : Nat) (host : String) (port : Nat)
    (database user : String) (putconnOk : Bool) : ReleaseAction × PgRegistry :=
  let key := pg_pool_key host port database user
  match lookupPool st.pools key with
  | some _ =>
    if putconnOk then
      (.returnedToPool, { st with pools := touchPool st.pools key now })
    else (.closedDirectly, st)
  | none => (.droppedNoop, st)

/-- `MongoDBConnectionPool.get_client`'s key:
`f"{host}:{port}:{database}"`, with `f":{username}"` appended only when
both username and password are truthy — the password itself is never part
of the key. -/
def mongo_client_key (host : String) (port : Nat) (database : String)
    (username password : Option String) : String :=
  let key := host ++ ":" ++ toString port ++ ":" ++ database
  if !(username.getD "" == "") && !(password.getD "" == "") then
    key ++ ":" ++ username.getD ""
  else key

/-- Well-formedness of the registry: pool identities are below the fresh
counter and pairwise distinct.  This holds for the empty registry and is
maintained by `get_connection`; it is what makes distinct pools
observably distinct. -/
def PgWF (st : PgRegistry) : Prop :=
  (∀ e ∈ st.pools, e.2.pool_id < st.nextId) ∧
  (st.pools.map (fun e => e.2.pool_id)).Nodup

/-! Token authentication middleware (`app/auth/middleware.py`). -/

/-- The paths that skip token validation. -/
def exclude_paths : List String :=
  ["/apiDatabase/auth/token", "/apiDatabase/auth/token/update",
   "/apiDatabase/auth/token/info", "/apiDatabase/auth/logs/cleanup",
   "/", "/docs", "/openapi.json", "/redoc"]

/-- `path.startswith(s)` on the character level. -/
def strStartsWith (path s : String) : Bool :=
  s.data.isPrefixOf path.data

/-- `any(path == excluded or (excluded != "/" and
path.startswith(excluded + "/")) for excluded in exclude_paths)`. -/
def isExcludedPath (path : String) : Bool :=
  exclude_paths.any (fun ex => path == ex || (!(ex == "/") && strStartsWith path (ex ++ "/")))

/-- `request.method in ["POST", "PUT", "PATCH", "DELETE"]`. -/
def isWriteMethod (method : String) : Bool :=
  ["POST", "PUT", "PATCH", "DELETE"].contains method

/-- The fields of the validated token snapshot that the middleware reads
(`token_info["token_type"]`, `token_info["remaining_calls"]`, and the ids
it forwards to the consume call). -/
structure MwTokenInfo where
  token_id : Nat
  ws_id : String
  token_type : String
  remaining_calls : Int
deriving Repr, DecidableEq

/-- Externally observable outcome of one dispatch: the response status,
whether `call_next` (the backend work) ran, and whether the consume
accounting (`update_token_usage`) was invoked. -/
structure MwResult where
  status_code : Nat
  backend_called : Bool
  consume_called : Bool
deriving Repr, DecidableEq

/-- Token extraction: the `accessToken` header if present and truthy,
otherwise the `access_token` query parameter; the empty string stands for
"no token" (Python falsiness). -/
def effectiveToken (header_token query_token : Option String) : String :=
  let t0 := header_token.getD ""
  if t0 == "" then query_token.getD "" else t0

/-- `TokenAuthMiddleware.dispatch` for a non-excluded path: missing token
→ 401; invalid token → 401; a write method (`POST/PUT/PATCH/DELETE`) on a
limited token with `remaining_calls ≤ 0` → 403 before any backend work
and before any consume; otherwise the backend runs and, for write methods
only, the consume accounting runs afterwards. -/
def token_auth_dispatch (method path : String) (header_token query_token : Option String)
    (validation : Option MwTokenInfo) (backend_status : Nat) : MwResult :=
  if isExcludedPath path then
    { status_code := backend_status, backend_called := true, consume_called := false }
  else if effectiveToken header_token query_token == "" then
    { status_code := 401, backend_called := false, consume_called := false }
  else
    match validation with
    | none => { status_code := 401, backend_called := false, consume_called := false }
    | some info =>
      if isWriteMethod method && (info.token_type == "limited")
          && decide (info.remaining_calls ≤ 0) then
        { status_code := 403, backend_called := false, consume_called := false }
      else
        { status_code := backend_status, backend_called := true
          consume_called := isWriteMethod method }

/-! Concrete inputs used by the witness theorems. -/

/-- An exhausted limited-token snapshot, for the C4 witness. -/
def wInfoZero : MwTokenInfo :=
  { token_id := 1, ws_id := "ws1", token_type := "limited", remaining_calls := 0 }

/-! Concurrency limiter (`app/utils/concurrency.py`).  One per-family
`asyncio.Semaphore(K)` guards the dispatch critical section via
`async with semaphore: ...`, which releases exactly once on every exit
path (success or exception).  Requests are cooperative asyncio tasks, so
a system run is a sequence of atomic scheduler events. -/

/-- Phase of one request with respect to the family semaphore. -/
inductive ReqPhase where
  | waiting
  | inside
  | done
deriving Repr, DecidableEq

/-- Semaphore counter plus the phase of each of the M requests. -/
structure SemSystem where
  sem : Nat
  reqs : List ReqPhase
deriving Repr, DecidableEq

/-- Scheduler events: request `i` completes `semaphore.acquire()` (only
possible while the counter is positive), or request `i` exits the
`async with` block — running its release — whether it finished normally
or with an error. -/
inductive SemEvent where
  | acq (i : Nat)
  | fin (i : Nat)
deriving Repr, DecidableEq

/-- M requests about to contend for a family semaphore of capacity K. -/
def initSystem (K M : Nat) : SemSystem :=
  { sem := K, reqs := List.replicate M .waiting }

/-- One scheduler event; `none` when the event is not enabled (a blocked
acquire, or a release by a request that holds no permit — impossible under
the `async with` discipline). -/
def semStep (s : SemSystem) (e : SemEvent) : Option SemSystem :=
  match e with
  | .acq i =>
    match s.reqs[i]? with
    | some .waiting =>
      if 0 < s.sem then
        some { sem := s.sem - 1, reqs := s.reqs.set i .inside }
      else none
    | _ => none
  | .fin i =>
    match s.reqs[i]? with
    | some .inside => some { sem := s.sem + 1, reqs := s.reqs.set i .done }
    | _ => none

/-- Run a sequence of scheduler events. -/
def semRun (s : SemSystem) (evs : List SemEvent) : Option SemSystem :=
  match evs with
  | [] => some s
  | e :: rest =>
    match semStep s e with
    | none => none
    | some s' => semRun s' rest

/-- Number of requests currently inside the critical section. -/
def insideCount (rs : List ReqPhase) : Nat :=
  rs.countP (fun p => p == .inside)

/-- Number of release events performed by request `i` in a run. -/
def relCount (evs : List SemEvent) (i : Nat) : Nat :=
  evs.countP (fun e => e == .fin i)

/-- 1 when request `i` has completed (and therefore released), else 0. -/
def doneInd (s : SemSystem) (i : Nat) : Nat :=
  if s.reqs[i]? = some .done then 1 else 0

/-- A concrete 3-event schedule for K = 1, M = 2, for the C7 witness. -/
def wEvs : List SemEvent := [.acq 0, .fin 0, .acq 1]

/-- Connection parameters differing only in the password, for the C3
counterexample. -/
def wP1 : PgConnParams :=
  { host := "h", port := 5432, database := "d", user := "u", password := "pw1" }

/-- Same identity fields as `wP1`, different credential. -/
def wP2 : PgConnParams :=
  { host := "h", port := 5432, database := "d", user := "u", password := "pw2" }

/-- Parameters with a different database, for the C3 witness. -/
def wP3 : PgConnParams :=
  { host := "h", port := 5432, database := "d2", user := "u", password := "pw1" }

/-- The empty pool registry. -/
def wReg0 : PgRegistry := { pools := [], nextId := 0 }

/-- A registry with one pool under the key of `wP1`, for the C8 witness. -/
def wReg1 : PgRegistry :=
  { pools := [(pgKeyOf wP1, { pool_id := 0, last_used := 5 })], nextId := 1 }

/-- A limited token with 2 remaining calls, for witnesses. -/
def wTok : TokenRecord :=
  { token_id := 1, access_token := "atk1", email := "a@b.c", ws_id := "ws1"
    token_type := "limited", remaining_calls := some 2, total_calls := some 3
    is_active := true }

/-- An unlimited token (null counters), for witnesses. -/
def wTokU : TokenRecord :=
  { token_id := 2, access_token := "atk2", email := "a@b.c", ws_id := "ws2"
    token_type := "unlimited", remaining_calls := none, total_calls := none
    is_active := true }

/-- A two-token ledger, for witnesses. -/
def wSt : LedgerState :=
  { tokens := [wTok, wTokU], logs := [], nextTokenId := 3, nextLogId := 0 }

/-- A successful consume call against token 1, for witnesses. -/
def wCall (tid : Nat) (op : String) : ConsumeCall :=
  { token_id := tid, ws_id := "ws1", operation_type := op
    target_database := "db", target_collection := none, status := "success"
    request_details := none, connOk := true, commitOk := true }

/-- Three successful consume calls against token 1 (one more than its
remaining quota), for the C1 witness. -/
def wOps : List ConsumeCall := [wCall 1 "q1", wCall 2 "q2", wCall 1 "q3", wCall 1 "q4"]

/-- A consume call whose connection acquisition fails, for the C2 witness. -/
def wCallFail : ConsumeCall :=
  { token_id := 1, ws_id := "ws1", operation_type := "q"
    target_database := "db", target_collection := none, status := "success"
    request_details := none, connOk := false, commitOk := true }

/-- The row that `create_auth_token wSt _ "ws8" "limited" _ none` inserts:
a `limited` token with NULL counters. -/
def wCreated : TokenRecord :=
  { token_id := 3, access_token := "atk8", email := "a@b.c", ws_id := "ws8"
    token_type := "limited", remaining_calls := none, total_calls := none
    is_active := true }

/-! ## Theorems -/

/-- Looking a token id up in a cons cell checks the head row first. -/
theorem lookupToken_cons (a : TokenRecord) (t : List TokenRecord) (tid : Nat) :
    lookupToken (a :: t) tid =
      if a.token_id == tid then some a else lookupToken t tid := by
  by_cases h : (a.token_id == tid) = true
  · rw [if_pos h]
    exact List.find?_cons_of_pos _ h
  · rw [if_neg h]
    exact List.find?_cons_of_neg _ h

/-- `updateRows` with a row transformer that keeps `token_id` leaves the
result of looking up the updated id as the transformed row. -/
theorem lookupToken_updateRows_self (ts : List TokenRecord) (tid : Nat)
    (f : TokenRecord → TokenRecord) (hf : ∀ t, (f t).token_id = t.token_id)
    (tok : TokenRecord) (h : lookupToken ts tid = some tok) :
    lookupToken (updateRows ts tid f) tid = some (f tok) := by
  induction ts with
  | nil => simp [lookupToken] at h
  | cons a t ih =>
    have hcons : updateRows (a :: t) tid f =
        (if a.token_id == tid then f a else a) :: updateRows t tid f := rfl
    rw [lookupToken_cons] at h
    rw [hcons]
    by_cases ha : (a.token_id == tid) = true
    · rw [if_pos ha] at h ⊢
      obtain rfl : a = tok := Option.some.inj h
      rw [lookupToken_cons,
        if_pos (show ((f a).token_id == tid) = true by rw [hf a]; exact ha)]
    · rw [if_neg ha] at h ⊢
      rw [lookupToken_cons, if_neg ha]
      exact ih h

/-- `updateRows` on one token id does not change lookups of another id. -/
theorem lookupToken_updateRows_ne (ts : List TokenRecord) (tid tid' : Nat)
    (f : TokenRecord → TokenRecord) (hf : ∀ t, (f t).token_id = t.token_id)
    (hne : tid' ≠ tid) :
    lookupToken (updateRows ts tid' f) tid = lookupToken ts tid := by
  induction ts with
  | nil => rfl
  | cons a t ih =>
    have hcons : updateRows (a :: t) tid' f =
        (if a.token_id == tid' then f a else a) :: updateRows t tid' f := rfl
    rw [hcons, lookupToken_cons, lookupToken_cons]
    by_cases ha' : (a.token_id == tid') = true
    · rw [if_pos ha']
      have hbeq : ((f a).token_id == tid) = (a.token_id == tid) := by rw [hf a]
      rw [hbeq]
      by_cases ha : (a.token_id == tid) = true
      · exfalso
        simp only [beq_iff_eq] at ha ha'
        omega
      · rw [if_neg ha, if_neg ha]
        exact ih
    · rw [if_neg ha']
      by_cases ha : (a.token_id == tid) = true
      · rw [if_pos ha, if_pos ha]
      · rw [if_neg ha, if_neg ha]
        exact ih

/-- A consume call for a different token neither moves the given token's
row nor adds usage-log rows referencing it. -/
theorem consume_preserve_other (st : LedgerState) (c : ConsumeCall) (tid : Nat)
    (hne : c.token_id ≠ tid) :
    lookupToken (update_token_usage st c).2.tokens tid = lookupToken st.tokens tid ∧
    logCountFor (update_token_usage st c).2 tid = logCountFor st tid := by
  unfold update_token_usage
  cases hconn : c.connOk with
  | false => simp
  | true =>
    cases hl : lookupToken st.tokens c.token_id with
    | none => simp
    | some tok =>
      cases hcommit : c.commitOk with
      | false => simp
      | true =>
        constructor
        · by_cases hty : tok.token_type = "limited"
          · simpa [hty] using
              lookupToken_updateRows_ne st.tokens tid c.token_id decRow (fun _ => rfl) hne
          · simp [hty]
        · simp [logCountFor, consumeEntry, List.countP_append, List.countP_cons, hne]

/-- One successful consume call on a `limited` token decrements its
remaining calls through `decClamp` and appends exactly one usage-log row
referencing it. -/
theorem consume_step_self (st : LedgerState) (c : ConsumeCall) (tok : TokenRecord)
    (hfind : lookupToken st.tokens c.token_id = some tok)
    (htype : tok.token_type = "limited")
    (hconn : c.connOk = true) (hcommit : c.commitOk = true) :
    (update_token_usage st c).1 = true ∧
    lookupToken (update_token_usage st c).2.tokens c.token_id = some (decRow tok) ∧
    logCountFor (update_token_usage st c).2 c.token_id = logCountFor st c.token_id + 1 := by
  refine ⟨by simp [update_token_usage, hconn, hfind, hcommit], ?_, ?_⟩
  · simpa [update_token_usage, hconn, hfind, htype, hcommit] using
      lookupToken_updateRows_self st.tokens c.token_id decRow (fun _ => rfl) tok hfind
  · simp [update_token_usage, hconn, hfind, htype, hcommit, logCountFor, consumeEntry,
      List.countP_append, List.countP_cons]

/-- Clamped decrement composes: consuming once and then `n` more times from
`R` lands at `max (R - (n+1)) 0`. -/
theorem decClamp_chain (R : Int) (n : Nat) :
    max (max (R - 1) 0 - (n : Int)) 0 = max (R - ((n : Int) + 1)) 0 := by
  simp only [max_def]
  split_ifs <;> omega

/-- C1: for a limited token with `remaining_calls = R ≥ 0`, any serialized
sequence of consume calls in which the `N` calls addressed to that token
all have working infrastructure leaves the token with
`remaining_calls = max (R - N) 0`, reports success for each of those `N`
calls, and appends exactly `N` usage-log rows referencing the token —
regardless of how calls to other tokens are interleaved. -/
theorem quota_monotonicity
    (st : LedgerState) (tid : Nat) (tok : TokenRecord) (R : Int) (ops : List ConsumeCall)
    (hfind : lookupToken st.tokens tid = some tok)
    (htype : tok.token_type = "limited")
    (hrem : tok.remaining_calls = some R)
    (hR : 0 ≤ R)
    (hok : ∀ c ∈ ops, c.token_id = tid → c.connOk = true ∧ c.commitOk = true) :
    (∀ pr ∈ ops.zip (runConsumes st ops).1, pr.1.token_id = tid → pr.2 = true) ∧
    (∃ tok', lookupToken (runConsumes st ops).2.tokens tid = some tok' ∧
      tok'.token_type = "limited" ∧
      tok'.remaining_calls =
        some (max (R - (ops.countP (fun c => c.token_id == tid) : Int)) 0)) ∧
    logCountFor (runConsumes st ops).2 tid =
      logCountFor st tid + ops.countP (fun c => c.token_id == tid) := by
  induction ops generalizing st tok R with
  | nil =>
    refine ⟨by simp, ⟨tok, by simpa [runConsumes] using hfind, htype, ?_⟩, by simp [runConsumes]⟩
    simp [hrem, List.countP_nil, max_eq_left hR]
  | cons c rest ih =>
    by_cases hc : c.token_id = tid
    · have hco := hok c (List.mem_cons_self c rest) hc
      have hfind' : lookupToken st.tokens c.token_id = some tok := by rw [hc]; exact hfind
      obtain ⟨hres, hlk, hlog⟩ := consume_step_self st c tok hfind' htype hco.1 hco.2
      have hlk' : lookupToken (update_token_usage st c).2.tokens tid = some (decRow tok) := by
        rw [← hc]; exact hlk
      have hrem' : (decRow tok).remaining_calls = some (max (R - 1) 0) := by
        simp [decRow, hrem, decClamp]
      have htype' : (decRow tok).token_type = "limited" := htype
      have hok' : ∀ c' ∈ rest, c'.token_id = tid → c'.connOk = true ∧ c'.commitOk = true :=
        fun c' hm => hok c' (List.mem_cons_of_mem c hm)
      obtain ⟨ihz, ⟨tok', ihlk, ihty, ihrem⟩, ihcnt⟩ :=
        ih (update_token_usage st c).2 (decRow tok) (max (R - 1) 0) hlk' htype' hrem'
          (le_max_right _ _) hok'
      refine ⟨?_, ⟨tok', ?_, ihty, ?_⟩, ?_⟩
      · intro pr hpr hpr1
        simp only [runConsumes, List.zip_cons_cons, List.mem_cons] at hpr
        rcases hpr with h | h
        · rw [h]; exact hres
        · exact ihz pr h hpr1
      · simpa [runConsumes] using ihlk
      · rw [ihrem, List.countP_cons]
        simp only [hc, beq_self_eq_true, if_true]
        push_cast
        rw [decClamp_chain]
      · show logCountFor (runConsumes (update_token_usage st c).2 rest).2 tid = _
        rw [hc] at hlog
        rw [ihcnt, hlog, List.countP_cons]
        simp only [hc, beq_self_eq_true, if_true]
        omega
    · obtain ⟨hpres, hcnt⟩ := consume_preserve_other st c tid hc
      have hok' : ∀ c' ∈ rest, c'.token_id = tid → c'.connOk = true ∧ c'.commitOk = true :=
        fun c' hm => hok c' (List.mem_cons_of_mem c hm)
      obtain ⟨ihz, ⟨tok', ihlk, ihty, ihrem⟩, ihcnt⟩ :=
        ih (update_token_usage st c).2 tok R (hpres.trans hfind) htype hrem hR hok'
      refine ⟨?_, ⟨tok', by simpa [runConsumes] using ihlk, ihty, ?_⟩, ?_⟩
      · intro pr hpr hpr1
        simp only [runConsumes, List.zip_cons_cons, List.mem_cons] at hpr
        rcases hpr with h | h
        · rw [h] at hpr1
          exact absurd hpr1 hc
        · exact ihz pr h hpr1
      · rw [ihrem, List.countP_cons]
        simp [hc]
      · simp only [runConsumes, List.countP_cons]
        rw [ihcnt, hcnt]
        simp [hc]

/-- C1 witness: token 1 starts with 2 remaining calls; after 3 successful
consume calls for it (interleaved with one call for token 2) it holds
`max (2 - 3) 0 = 0` remaining calls and 3 usage-log rows. -/
theorem quota_monotonicity_witness :
    (lookupToken wSt.tokens 1 = some wTok ∧ wTok.token_type = "limited" ∧
      wTok.remaining_calls = some 2 ∧ (0 : Int) ≤ 2 ∧
      (∀ c ∈ wOps, c.token_id = 1 → c.connOk = true ∧ c.commitOk = true)) ∧
    ((∀ pr ∈ wOps.zip (runConsumes wSt wOps).1, pr.1.token_id = 1 → pr.2 = true) ∧
      (∃ tok', lookupToken (runConsumes wSt wOps).2.tokens 1 = some tok' ∧
        tok'.token_type = "limited" ∧
        tok'.remaining_calls =
          some (max ((2 : Int) - (wOps.countP (fun c => c.token_id == 1) : Int)) 0)) ∧
      logCountFor (runConsumes wSt wOps).2 1 =
        logCountFor wSt 1 + wOps.countP (fun c => c.token_id == 1)) :=
  ⟨⟨rfl, rfl, rfl, by decide, by decide⟩,
    quota_monotonicity wSt 1 wTok 2 wOps rfl rfl rfl (by decide) (by decide)⟩

/-- C2: each `update_token_usage` call is all-or-nothing: a `false` result
leaves the ledger exactly as it was (no partial decrement, no partial log
row), while a `true` result means the clamped decrement (for a limited
token; no token change otherwise) and exactly one usage-log append were
committed together. -/
theorem consume_atomicity (st : LedgerState) (c : ConsumeCall) :
    ((update_token_usage st c).1 = false → (update_token_usage st c).2 = st) ∧
    ((update_token_usage st c).1 = true →
      ∃ tok, lookupToken st.tokens c.token_id = some tok ∧
        (update_token_usage st c).2.logs = st.logs ++ [consumeEntry st c] ∧
        (consumeEntry st c).token_id = c.token_id ∧
        (update_token_usage st c).2.tokens =
          (if tok.token_type == "limited" then
            updateRows st.tokens c.token_id decRow
          else st.tokens)) := by
  unfold update_token_usage
  cases hconn : c.connOk with
  | false => simp
  | true =>
    cases hl : lookupToken st.tokens c.token_id with
    | none => simp
    | some tok =>
      cases hcommit : c.commitOk with
      | false => simp
      | true => exact ⟨by simp, fun _ => ⟨tok, rfl, by simp, rfl, by simp⟩⟩

/-- C2 witness: a consume call whose connection acquisition fails reports
failure and leaves the concrete ledger untouched. -/
theorem consume_atomicity_witness :
    (update_token_usage wSt wCallFail).1 = false ∧
    (update_token_usage wSt wCallFail).2 = wSt :=
  ⟨rfl, (consume_atomicity wSt wCallFail).1 rfl⟩

/-- C9: a successful consume call on an `unlimited` token reports success,
changes no token row at all (in particular `remaining_calls` and
`total_calls` stay as they are — absent), and appends exactly one
usage-log row for the call. -/
theorem unlimited_non_decrement (st : LedgerState) (c : ConsumeCall) (tok : TokenRecord)
    (hfind : lookupToken st.tokens c.token_id = some tok)
    (htype : tok.token_type = "unlimited")
    (hconn : c.connOk = true) (hcommit : c.commitOk = true) :
    (update_token_usage st c).1 = true ∧
    (update_token_usage st c).2.tokens = st.tokens ∧
    (update_token_usage st c).2.logs = st.logs ++ [consumeEntry st c] ∧
    logCountFor (update_token_usage st c).2 c.token_id = logCountFor st c.token_id + 1 := by
  have hty : ¬ tok.token_type = "limited" := by simp [htype]
  unfold update_token_usage
  rw [hconn, hfind]
  simp [hty, hcommit, logCountFor, consumeEntry, List.countP_append, List.countP_cons]

/-- C9 witness: consuming on the concrete unlimited token 2 succeeds,
leaves both counters absent, and logs one row. -/
theorem unlimited_non_decrement_witness :
    (lookupToken wSt.tokens 2 = some wTokU ∧ wTokU.token_type = "unlimited" ∧
      wTokU.remaining_calls = none ∧ wTokU.total_calls = none) ∧
    ((update_token_usage wSt (wCall 2 "q")).1 = true ∧
      (update_token_usage wSt (wCall 2 "q")).2.tokens = wSt.tokens ∧
      (update_token_usage wSt (wCall 2 "q")).2.logs =
        wSt.logs ++ [consumeEntry wSt (wCall 2 "q")] ∧
      logCountFor (update_token_usage wSt (wCall 2 "q")).2 2 = logCountFor wSt 2 + 1) :=
  ⟨⟨rfl, rfl, rfl, rfl⟩, unlimited_non_decrement wSt (wCall 2 "q") wTokU rfl rfl rfl rfl⟩

/-- Looking a workspace id up in a cons cell checks the head row first. -/
theorem lookupTokenByWs_cons (a : TokenRecord) (t : List TokenRecord) (ws : String) :
    lookupTokenByWs (a :: t) ws =
      if a.ws_id == ws then some a else lookupTokenByWs t ws := by
  by_cases h : (a.ws_id == ws) = true
  · rw [if_pos h]
    exact List.find?_cons_of_pos _ h
  · rw [if_neg h]
    exact List.find?_cons_of_neg _ h

/-- `updateRowsWs` with a row transformer that keeps `ws_id` leaves the
result of looking the workspace up as the transformed row. -/
theorem lookupTokenByWs_updateRowsWs_self (ts : List TokenRecord) (ws : String)
    (f : TokenRecord → TokenRecord) (hf : ∀ t, (f t).ws_id = t.ws_id)
    (tok : TokenRecord) (h : lookupTokenByWs ts ws = some tok) :
    lookupTokenByWs (updateRowsWs ts ws f) ws = some (f tok) := by
  induction ts with
  | nil => simp [lookupTokenByWs] at h
  | cons a t ih =>
    have hcons : updateRowsWs (a :: t) ws f =
        (if a.ws_id == ws then f a else a) :: updateRowsWs t ws f := rfl
    rw [lookupTokenByWs_cons] at h
    rw [hcons]
    by_cases ha : (a.ws_id == ws) = true
    · rw [if_pos ha] at h ⊢
      obtain rfl : a = tok := Option.some.inj h
      rw [lookupTokenByWs_cons,
        if_pos (show ((f a).ws_id == ws) = true by rw [hf a]; exact ha)]
    · rw [if_neg ha] at h ⊢
      rw [lookupTokenByWs_cons, if_neg ha]
      exact ih h

/-- Inserting a fresh workspace row at the end of the table makes it the
lookup result when the workspace was absent before. -/
theorem lookupTokenByWs_append_single (ts : List TokenRecord) (tok : TokenRecord)
    (ws : String) (h : lookupTokenByWs ts ws = none) (hw : tok.ws_id = ws) :
    lookupTokenByWs (ts ++ [tok]) ws = some tok := by
  rw [lookupTokenByWs, List.find?_append]
  rw [lookupTokenByWs] at h
  rw [h]
  simp [List.find?, hw]

/-- C6 (amended): tokens created with `unlimited` type, or with a supplied
non-negative `total_calls`, satisfy the type invariant, and every
successful `update_auth_token` operation re-establishes the invariant for
a target token of type limited/unlimited that satisfied it before. -/
theorem token_type_invariant :
    (∀ (st : LedgerState) (email ws ttype atok : String) (tc : Option Int),
      (ttype = "unlimited" ∨ ∃ v, tc = some v ∧ 0 ≤ v) →
      (create_auth_token st email ws ttype atok tc).1 = true →
      ∃ t, lookupTokenByWs
          (create_auth_token st email ws ttype atok tc).2.2.tokens ws = some t ∧
        tokenInvB t = true) ∧
    (∀ (st : LedgerState) (ws op : String) (cv : Option Int) (tok : TokenRecord),
      lookupTokenByWs st.tokens ws = some tok →
      (tok.token_type = "limited" ∨ tok.token_type = "unlimited") →
      tokenInvB tok = true →
      (update_auth_token st ws op cv).1 = true →
      ∃ t, lookupTokenByWs (update_auth_token st ws op cv).2.2.tokens ws = some t ∧
        tokenInvB t = true) := by
  constructor
  · intro st email ws ttype atok tc h hsucc
    cases hl : lookupTokenByWs st.tokens ws with
    | some t0 => simp [create_auth_token, hl] at hsucc
    | none =>
      refine ⟨{ token_id := st.nextTokenId, access_token := atok, email := email
                ws_id := ws, token_type := ttype
                remaining_calls := if ttype == "unlimited" then none else tc
                total_calls := if ttype == "unlimited" then none else tc
                is_active := true }, ?_, ?_⟩
      · have := lookupTokenByWs_append_single st.tokens
          { token_id := st.nextTokenId, access_token := atok, email := email
            ws_id := ws, token_type := ttype
            remaining_calls := if ttype == "unlimited" then none else tc
            total_calls := if ttype == "unlimited" then none else tc
            is_active := true } ws hl rfl
        simpa [create_auth_token, hl] using this
      · by_cases hu : ttype = "unlimited"
        · simp [tokenInvB, hu]
        · rcases h with h | ⟨v, rfl, hv⟩
          · exact absurd h hu
          · by_cases hlim : ttype = "limited"
            · simp [tokenInvB, beq_iff_eq, hu, hlim, decide_eq_true_eq]
              omega
            · simp [tokenInvB, beq_iff_eq, hu, hlim]
  · intro st ws op cv tok hfind htys hinv hsucc
    by_cases h1 : op = "unlimited"
    · subst h1
      refine ⟨clearedUnlimited tok, ?_, ?_⟩
      · have := lookupTokenByWs_updateRowsWs_self st.tokens ws clearedUnlimited
          (fun _ => rfl) tok hfind
        simpa [update_auth_token, hfind] using this
      · simp [tokenInvB, clearedUnlimited]
    · by_cases h2 : op = "add"
      · subst h2
        cases cv with
        | none => simp [update_auth_token, hfind, pyFalsyOptInt] at hsucc
        | some v =>
          by_cases hv0 : v = 0
          · simp [update_auth_token, hfind, pyFalsyOptInt, hv0] at hsucc
          · by_cases hvneg : v ≤ 0
            · simp [update_auth_token, hfind, pyFalsyOptInt, hv0, hvneg] at hsucc
            · have hvpos : 0 < v := by omega
              refine ⟨addCalls v tok, ?_, ?_⟩
              · have := lookupTokenByWs_updateRowsWs_self st.tokens ws (addCalls v)
                  (fun _ => rfl) tok hfind
                simpa [update_auth_token, hfind, pyFalsyOptInt, hv0, hvneg] using this
              · rcases htys with hty | hty
                · cases hr : tok.remaining_calls with
                  | none => simp [tokenInvB, hty, hr] at hinv
                  | some r =>
                    cases ht : tok.total_calls with
                    | none => simp [tokenInvB, hty, hr, ht] at hinv
                    | some t =>
                      simp [tokenInvB, hty, hr, ht] at hinv
                      simp [tokenInvB, addCalls, hty, hr, ht, decide_eq_true_eq]
                      omega
                · have hn : tok.remaining_calls = none ∧ tok.total_calls = none := by
                    simpa [tokenInvB, hty] using hinv
                  simp [tokenInvB, addCalls, hn.1, hn.2, decide_eq_true_eq]
                  omega
      · by_cases h3 : op = "set"
        · subst h3
          cases cv with
          | none => simp [update_auth_token, hfind, pyFalsyOptInt] at hsucc
          | some v =>
            by_cases hv0 : v = 0
            · simp [update_auth_token, hfind, pyFalsyOptInt, hv0] at hsucc
            · by_cases hvneg : v < 0
              · simp [update_auth_token, hfind, pyFalsyOptInt, hv0, hvneg] at hsucc
              · have hvpos : 0 ≤ v := by omega
                refine ⟨setCalls v tok, ?_, ?_⟩
                · have := lookupTokenByWs_updateRowsWs_self st.tokens ws (setCalls v)
                    (fun _ => rfl) tok hfind
                  simpa [update_auth_token, hfind, pyFalsyOptInt, hv0, hvneg] using this
                · simp [tokenInvB, setCalls, decide_eq_true_eq]
                  exact hvpos
        · simp [update_auth_token, hfind, h1, h2, h3] at hsucc

/-- C6 counterexample: `create_auth_token` with `token_type = "limited"`
and no `total_calls` succeeds and inserts a limited token whose
`remaining_calls` and `total_calls` are NULL, violating the type
invariant. -/
theorem token_type_invariant_counterexample :
    create_auth_token wSt "a@b.c" "ws8" "limited" "atk8" none =
      (true, some (createSummary wCreated),
        { wSt with tokens := wSt.tokens ++ [wCreated], nextTokenId := 4 }) ∧
    wCreated.token_type = "limited" ∧
    wCreated.remaining_calls = none ∧
    wCreated.total_calls = none ∧
    tokenInvB wCreated = false := by
  refine ⟨?_, rfl, rfl, rfl, rfl⟩
  rfl

/-- C6 witness: creating a limited token with `total_calls = 5` and adding
7 calls to the existing limited token both yield invariant-satisfying
rows. -/
theorem token_type_invariant_witness :
    ((create_auth_token wSt "a@b.c" "ws9" "limited" "atk9" (some 5)).1 = true ∧
      (∃ t, lookupTokenByWs
          (create_auth_token wSt "a@b.c" "ws9" "limited" "atk9" (some 5)).2.2.tokens
          "ws9" = some t ∧ tokenInvB t = true)) ∧
    (lookupTokenByWs wSt.tokens "ws1" = some wTok ∧ tokenInvB wTok = true ∧
      (update_auth_token wSt "ws1" "add" (some 7)).1 = true ∧
      (∃ t, lookupTokenByWs
          (update_auth_token wSt "ws1" "add" (some 7)).2.2.tokens "ws1" = some t ∧
        tokenInvB t = true)) :=
  ⟨⟨rfl, token_type_invariant.1 wSt "a@b.c" "ws9" "limited" "atk9" (some 5)
      (Or.inr ⟨5, rfl, by decide⟩) rfl⟩,
    ⟨rfl, rfl, rfl, token_type_invariant.2 wSt "ws1" "add" (some 7) wTok rfl
      (Or.inl rfl) rfl rfl⟩⟩

/-- C5: the spec requires `set` with `callsValue = 0` to succeed with
`remaining = total = 0`, and the route's own error message demands only a
non-negative value; but the guard `not calls_value or calls_value < 0`
treats the integer 0 as falsy, so `set 0` on an existing token is rejected
as a validation error with no mutation. -/
theorem set_zero_rejected :
    lookupTokenByWs wSt.tokens "ws1" = some wTok ∧
    update_auth_token wSt "ws1" "set" (some 0) = (false, none, wSt) ∧
    update_auth_token wSt "ws1" "set" (some 5) =
      (true, some (updateSummary (setCalls 5 wTok)),
        { wSt with tokens := updateRowsWs wSt.tokens "ws1" (setCalls 5) }) := by
  refine ⟨rfl, ?_, ?_⟩ <;> rfl

/-- C10: `validate_auth_token` is total at its interface: for every
access-token string and every infrastructure outcome it returns either
`(true, token)` for an active matching row or `(false, none)`; an
infrastructure failure (connection error or raised exception) is reported
as an invalid token, never propagated. -/
theorem validate_auth_token_total (st : LedgerState) (a : String) (infra : InfraOutcome) :
    ((validate_auth_token st a infra).1 = true →
      ∃ t, (validate_auth_token st a infra).2 = some t ∧
        t.access_token = a ∧ t.is_active = true) ∧
    ((validate_auth_token st a infra).1 = false →
      (validate_auth_token st a infra).2 = none) ∧
    (infra ≠ .ok → validate_auth_token st a infra = (false, none)) := by
  cases infra with
  | connError m => simp [validate_auth_token]
  | raised m => simp [validate_auth_token]
  | ok =>
    refine ⟨?_, ?_, fun h => absurd rfl h⟩
    · intro hv
      cases hf : st.tokens.find? (fun t => t.access_token == a && t.is_active) with
      | none => simp [validate_auth_token, hf] at hv
      | some t =>
        have hp := List.find?_some hf
        simp only [Bool.and_eq_true, beq_iff_eq] at hp
        exact ⟨t, by simp [validate_auth_token, hf], hp.1, hp.2⟩
    · intro hv
      cases hf : st.tokens.find? (fun t => t.access_token == a && t.is_active) with
      | none => simp [validate_auth_token, hf]
      | some t => simp [validate_auth_token, hf] at hv

/-- C10 witness: validating the concrete active token succeeds and returns
a matching row; a raised exception yields `(false, none)`. -/
theorem validate_auth_token_total_witness :
    ((validate_auth_token wSt "atk1" InfraOutcome.ok).1 = true ∧
      (∃ t, (validate_auth_token wSt "atk1" InfraOutcome.ok).2 = some t ∧
        t.access_token = "atk1" ∧ t.is_active = true)) ∧
    (InfraOutcome.raised "boom" ≠ InfraOutcome.ok ∧
      validate_auth_token wSt "atk1" (InfraOutcome.raised "boom") = (false, none)) :=
  ⟨⟨rfl, (validate_auth_token_total wSt "atk1" InfraOutcome.ok).1 rfl⟩,
    ⟨by decide, (validate_auth_token_total wSt "atk1" (InfraOutcome.raised "boom")).2.2
      (by decide)⟩⟩

/-- Looking a pool key up in a cons cell checks the head entry first. -/
theorem lookupPool_cons (e : String × PoolInfo) (ps : List (String × PoolInfo))
    (k : String) :
    lookupPool (e :: ps) k = if e.1 == k then some e.2 else lookupPool ps k := by
  by_cases h : (e.1 == k) = true
  · rw [if_pos h]
    have hf : List.find? (fun x => x.1 == k) (e :: ps) = some e :=
      List.find?_cons_of_pos _ h
    rw [lookupPool, hf]
    rfl
  · rw [if_neg h]
    have hf : List.find? (fun x => x.1 == k) (e :: ps) =
        List.find? (fun x => x.1 == k) ps :=
      List.find?_cons_of_neg _ h
    rw [lookupPool, hf]
    rfl

/-- Refreshing one key's `last_used` changes no lookup's pool identity
(and creates or deletes no entry). -/
theorem lookupPool_touchPool_id (ps : List (String × PoolInfo)) (k : String)
    (n : Nat) (k' : String) :
    (lookupPool (touchPool ps k n) k').map PoolInfo.pool_id =
      (lookupPool ps k').map PoolInfo.pool_id := by
  induction ps with
  | nil => rfl
  | cons e t ih =>
    have hcons : touchPool (e :: t) k n =
        (if e.1 == k then (e.1, { e.2 with last_used := n }) else e) :: touchPool t k n := rfl
    rw [hcons, lookupPool_cons, lookupPool_cons]
    by_cases hek : (e.1 == k) = true <;> by_cases hek' : (e.1 == k') = true <;>
      simp [hek, hek', ih]

/-- Appending a fresh entry only affects lookups that previously missed. -/
theorem lookupPool_append_single (ps : List (String × PoolInfo)) (k : String)
    (info : PoolInfo) (k' : String) :
    lookupPool (ps ++ [(k, info)]) k' =
      (lookupPool ps k').or (if k == k' then some info else none) := by
  induction ps with
  | nil =>
    by_cases h : (k == k') = true
    · simp [lookupPool_cons, lookupPool, h]
    · simp [lookupPool_cons, lookupPool, h]
  | cons e t ih =>
    rw [List.cons_append, lookupPool_cons, lookupPool_cons]
    by_cases he : (e.1 == k') = true
    · simp [he]
    · simp [he, ih]

/-- A successful pool lookup comes from an entry of the registry with that
key. -/
theorem lookupPool_some_mem (ps : List (String × PoolInfo)) (k : String)
    (i : PoolInfo) (h : lookupPool ps k = some i) :
    ∃ e, e ∈ ps ∧ e.1 = k ∧ e.2 = i := by
  unfold lookupPool at h
  cases hf : List.find? (fun e => e.1 == k) ps with
  | none => rw [hf] at h; simp at h
  | some e =>
    rw [hf] at h
    refine ⟨e, List.mem_of_find?_eq_some hf, ?_, ?_⟩
    · have hp := List.find?_some hf
      simpa using hp
    · simpa using h

/-- C3 (amended): for the relational backend, pool identity is the string
key `host:port:database:user` — the credential is not part of it (the
backend family is implicit in each family having its own registry).  On a
well-formed registry, two successive leases both succeed, they return the
same pool identity exactly when their keys agree, and distinct keys yield
distinct pool identities. -/
theorem pool_identity (st : PgRegistry) (n1 n2 : Nat) (p1 p2 : PgConnParams)
    (hwf : PgWF st) :
    (get_connection st n1 p1 true).1.isSome = true ∧
    (get_connection (get_connection st n1 p1 true).2 n2 p2 true).1.isSome = true ∧
    (pgKeyOf p1 = pgKeyOf p2 →
      (get_connection (get_connection st n1 p1 true).2 n2 p2 true).1 =
        (get_connection st n1 p1 true).1) ∧
    (pgKeyOf p1 ≠ pgKeyOf p2 →
      (get_connection (get_connection st n1 p1 true).2 n2 p2 true).1 ≠
        (get_connection st n1 p1 true).1) := by
  cases hl1 : lookupPool st.pools (pgKeyOf p1) with
  | some i1 =>
    obtain ⟨e1, he1m, he1k, he1i⟩ := lookupPool_some_mem st.pools (pgKeyOf p1) i1 hl1
    have htouch := lookupPool_touchPool_id st.pools (pgKeyOf p1) n1 (pgKeyOf p2)
    cases hl2 : lookupPool st.pools (pgKeyOf p2) with
    | some i2 =>
      obtain ⟨e2, he2m, he2k, he2i⟩ := lookupPool_some_mem st.pools (pgKeyOf p2) i2 hl2
      rw [hl2] at htouch
      cases hx : lookupPool (touchPool st.pools (pgKeyOf p1) n1) (pgKeyOf p2) with
      | none => rw [hx] at htouch; simp at htouch
      | some i2' =>
        rw [hx] at htouch
        have hid : i2'.pool_id = i2.pool_id := by simpa using htouch
        refine ⟨by simp [get_connection, hl1], ?_, ?_, ?_⟩
        · simp [get_connection, hl1, hx]
        · intro hk
          have hl12 : lookupPool st.pools (pgKeyOf p2) = some i1 := by
            rw [← hk]; exact hl1
          have hii : i1 = i2 := Option.some.inj (hl12.symm.trans hl2)
          simp [get_connection, hl1, hx, hid, hii]
        · intro hk
          have hne : e1 ≠ e2 := by
            intro hcontra
            rw [hcontra, he2k] at he1k
            exact hk he1k.symm
          have hidne : i1.pool_id ≠ i2.pool_id := by
            intro hcontra
            apply hne
            exact List.inj_on_of_nodup_map hwf.2 he1m he2m (by rw [he1i, he2i, hcontra])
          simp [get_connection, hl1, hx, hid]
          omega
    | none =>
      rw [hl2] at htouch
      cases hx : lookupPool (touchPool st.pools (pgKeyOf p1) n1) (pgKeyOf p2) with
      | some i2' => rw [hx] at htouch; simp at htouch
      | none =>
        have hlt : i1.pool_id < st.nextId := by
          have := hwf.1 e1 he1m
          rw [he1i] at this
          exact this
        refine ⟨by simp [get_connection, hl1], ?_, ?_, ?_⟩
        · simp [get_connection, hl1, hx]
        · intro hk
          have hl12 : lookupPool st.pools (pgKeyOf p2) = some i1 := by
            rw [← hk]; exact hl1
          rw [hl12] at hl2
          exact absurd hl2 (by simp)
        · intro hk
          simp [get_connection, hl1, hx]
          omega
  | none =>
    have happ := lookupPool_append_single st.pools (pgKeyOf p1)
      { pool_id := st.nextId, last_used := n1 } (pgKeyOf p2)
    cases hl2 : lookupPool st.pools (pgKeyOf p2) with
    | some i2 =>
      obtain ⟨e2, he2m, he2k, he2i⟩ := lookupPool_some_mem st.pools (pgKeyOf p2) i2 hl2
      rw [hl2] at happ
      have happ2 : lookupPool
          (st.pools ++ [(pgKeyOf p1, { pool_id := st.nextId, last_used := n1 })])
          (pgKeyOf p2) = some i2 := by
        rw [happ]
        rfl
      have hlt : i2.pool_id < st.nextId := by
        have := hwf.1 e2 he2m
        rw [he2i] at this
        exact this
      refine ⟨by simp [get_connection, hl1], ?_, ?_, ?_⟩
      · simp [get_connection, hl1, happ2]
      · intro hk
        have hl12 : lookupPool st.pools (pgKeyOf p1) = some i2 := by
          rw [hk]; exact hl2
        rw [hl12] at hl1
        exact absurd hl1 (by simp)
      · intro hk
        simp [get_connection, hl1, happ2]
        omega
    | none =>
      rw [hl2] at happ
      by_cases hk : pgKeyOf p1 = pgKeyOf p2
      · have happ' : lookupPool
            (st.pools ++ [(pgKeyOf p1, { pool_id := st.nextId, last_used := n1 })])
            (pgKeyOf p2) = some { pool_id := st.nextId, last_used := n1 } := by
          rw [happ]
          simp [hk]
        refine ⟨by simp [get_connection, hl1], ?_, fun _ => ?_, fun hne => absurd hk hne⟩
        · simp [get_connection, hl1, happ']
        · simp [get_connection, hl1, happ']
      · have happ' : lookupPool
            (st.pools ++ [(pgKeyOf p1, { pool_id := st.nextId, last_used := n1 })])
            (pgKeyOf p2) = none := by
          rw [happ]
          simp [hk]
        refine ⟨by simp [get_connection, hl1], ?_, fun hkk => absurd hkk hk, fun _ => ?_⟩
        · simp [get_connection, hl1, happ']
        · simp [get_connection, hl1, happ']

/-- C3 counterexample: two leases whose parameters differ only in the
password land on the same pool (same pool identity), because the pool key
omits the credential; the MongoDB client key likewise ignores the
password. -/
theorem pool_identity_counterexample :
    wP1 ≠ wP2 ∧ wP1.password ≠ wP2.password ∧
    wP1.host = wP2.host ∧ wP1.port = wP2.port ∧
    wP1.database = wP2.database ∧ wP1.user = wP2.user ∧
    (get_connection wReg0 0 wP1 true).1 = some 0 ∧
    (get_connection (get_connection wReg0 0 wP1 true).2 1 wP2 true).1 = some 0 ∧
    mongo_client_key "h" 27017 "d" (some "u") (some "pw1") =
      mongo_client_key "h" 27017 "d" (some "u") (some "pw2") := by
  refine ⟨by decide, by decide, rfl, rfl, rfl, rfl, by decide, by decide, rfl⟩

/-- C3 witness: on the empty (well-formed) registry, a lease for `wP1`
followed by a lease for `wP3` (different database, hence different key)
produces distinct pool identities. -/
theorem pool_identity_witness :
    (PgWF wReg0 ∧ pgKeyOf wP1 ≠ pgKeyOf wP3) ∧
    (get_connection (get_connection wReg0 0 wP1 true).2 1 wP3 true).1 ≠
      (get_connection wReg0 0 wP1 true).1 :=
  ⟨⟨⟨by simp [wReg0], by simp [wReg0]⟩, by decide⟩,
    (pool_identity wReg0 0 1 wP1 wP3 ⟨by simp [wReg0], by simp [wReg0]⟩).2.2.2 (by decide)⟩

/-- C8 (amended): releasing a connection whose pool key is absent (already
reaped) is a silent no-op — it raises no error but also does not close the
connection; when the pool still exists and `putconn` succeeds, the
connection is returned to that pool and the entry's `last_used` is
refreshed. -/
theorem release_semantics (st : PgRegistry) (now : Nat) (host : String) (port : Nat)
    (database user : String) :
    (lookupPool st.pools (pg_pool_key host port database user) = none →
      release_connection st now host port database user true = (.droppedNoop, st)) ∧
    (∀ i, lookupPool st.pools (pg_pool_key host port database user) = some i →
      release_connection st now host port database user true =
        (.returnedToPool,
          { st with
              pools := touchPool st.pools (pg_pool_key host port database user) now })) := by
  constructor
  · intro h
    simp [release_connection, h]
  · intro i h
    simp [release_connection, h]

/-- C8 counterexample: on an empty registry the release takes the no-op
path — the connection is neither closed nor returned, refuting the claim
that it is closed directly. -/
theorem release_missing_counterexample :
    lookupPool wReg0.pools (pg_pool_key "h" 5432 "d" "u") = none ∧
    release_connection wReg0 0 "h" 5432 "d" "u" true = (.droppedNoop, wReg0) ∧
    ReleaseAction.droppedNoop ≠ ReleaseAction.closedDirectly := by
  refine ⟨rfl, rfl, by decide⟩

/-- C8 witness: the no-op path on the empty registry and the
return-and-refresh path on a one-pool registry, both via
`release_semantics`. -/
theorem release_semantics_witness :
    (lookupPool wReg0.pools (pg_pool_key "h" 5432 "d" "u") = none ∧
      release_connection wReg0 0 "h" 5432 "d" "u" true = (.droppedNoop, wReg0)) ∧
    (lookupPool wReg1.pools (pg_pool_key "h" 5432 "d" "u") =
        some { pool_id := 0, last_used := 5 } ∧
      release_connection wReg1 9 "h" 5432 "d" "u" true =
        (.returnedToPool,
          { wReg1 with pools := touchPool wReg1.pools (pg_pool_key "h" 5432 "d" "u") 9 })) :=
  ⟨⟨rfl, (release_semantics wReg0 0 "h" 5432 "d" "u").1 rfl⟩,
    ⟨rfl, (release_semantics wReg1 9 "h" 5432 "d" "u").2
      { pool_id := 0, last_used := 5 } rfl⟩⟩

/-- C4: for an authenticated request on a non-excluded path carrying a
limited token with `remaining_calls ≤ 0` at validation time: a write
method is rejected with 403 before any backend work and before any
consume; a non-write (read-only) method passes through — the backend runs,
its status is returned, and no consume is performed. -/
theorem quota_admission (method path : String) (ht qt : Option String)
    (info : MwTokenInfo) (bs : Nat)
    (hex : isExcludedPath path = false)
    (htk : ¬ effectiveToken ht qt = "")
    (hlim : info.token_type = "limited")
    (hrem : info.remaining_calls ≤ 0) :
    (isWriteMethod method = true →
      token_auth_dispatch method path ht qt (some info) bs =
        { status_code := 403, backend_called := false, consume_called := false }) ∧
    (isWriteMethod method = false →
      token_auth_dispatch method path ht qt (some info) bs =
        { status_code := bs, backend_called := true, consume_called := false }) := by
  constructor
  · intro hw
    simp [token_auth_dispatch, hex, htk, hw, hlim, hrem]
  · intro hw
    simp [token_auth_dispatch, hex, htk, hw]

/-- C4 witness: with an exhausted limited token, a POST to a backend path
is rejected with 403 with no backend call and no consume, while a GET on
the same path passes through with no consume. -/
theorem quota_admission_witness :
    (isExcludedPath "/apiDatabase/postgresql/query" = false ∧
      ¬ effectiveToken (some "tok") none = "" ∧
      wInfoZero.token_type = "limited" ∧ wInfoZero.remaining_calls ≤ 0) ∧
    token_auth_dispatch "POST" "/apiDatabase/postgresql/query" (some "tok") none
        (some wInfoZero) 200 =
      { status_code := 403, backend_called := false, consume_called := false } ∧
    token_auth_dispatch "GET" "/apiDatabase/postgresql/query" (some "tok") none
        (some wInfoZero) 200 =
      { status_code := 200, backend_called := true, consume_called := false } :=
  ⟨⟨by decide, by decide, rfl, by decide⟩,
    (quota_admission "POST" "/apiDatabase/postgresql/query" (some "tok") none wInfoZero 200
      (by decide) (by decide) rfl (by decide)).1 rfl,
    (quota_admission "GET" "/apiDatabase/postgresql/query" (some "tok") none wInfoZero 200
      (by decide) (by decide) rfl (by decide)).2 rfl⟩

/-- Setting one list position trades its old predicate contribution for
the new element's, in truncation-free additive form. -/
theorem countP_set_add {α : Type} (l : List α) (i : Nat) (a b : α) (p : α → Bool)
    (h : l[i]? = some b) :
    (l.set i a).countP p + (if p b then 1 else 0) =
      l.countP p + (if p a then 1 else 0) := by
  induction l generalizing i with
  | nil => simp at h
  | cons c t ih =>
    cases i with
    | zero =>
      obtain rfl : c = b := by simpa using h
      have hset : (c :: t).set 0 a = a :: t := rfl
      rw [hset, List.countP_cons, List.countP_cons]
      omega
    | succ j =>
      have h' : t[j]? = some b := by simpa using h
      have hset : (c :: t).set (j + 1) a = c :: t.set j a := rfl
      rw [hset, List.countP_cons, List.countP_cons]
      have hih := ih j h'
      omega

/-- Shape of a successful acquire step. -/
theorem semStep_acq (s : SemSystem) (j : Nat) (s1 : SemSystem)
    (h : semStep s (.acq j) = some s1) :
    s.reqs[j]? = some .waiting ∧ 0 < s.sem ∧
    s1 = { sem := s.sem - 1, reqs := s.reqs.set j .inside } := by
  cases hg : s.reqs[j]? with
  | none => simp [semStep, hg] at h
  | some ph =>
    cases ph with
    | waiting =>
      by_cases hsem : 0 < s.sem
      · simp [semStep, hg, hsem] at h
        exact ⟨rfl, hsem, h.symm⟩
      · simp [semStep, hg, hsem] at h
    | inside => simp [semStep, hg] at h
    | done => simp [semStep, hg] at h

/-- Shape of a successful release step: only a request inside the critical
section can run its release, and it moves to `done`. -/
theorem semStep_fin (s : SemSystem) (j : Nat) (s1 : SemSystem)
    (h : semStep s (.fin j) = some s1) :
    s.reqs[j]? = some .inside ∧
    s1 = { sem := s.sem + 1, reqs := s.reqs.set j .done } := by
  cases hg : s.reqs[j]? with
  | none => simp [semStep, hg] at h
  | some ph =>
    cases ph with
    | waiting => simp [semStep, hg] at h
    | inside =>
      simp [semStep, hg] at h
      exact ⟨rfl, h.symm⟩
    | done => simp [semStep, hg] at h

/-- Each step preserves the permit-accounting invariant
`sem + insideCount = K`. -/
theorem semStep_inv (K : Nat) (s : SemSystem) (e : SemEvent) (s1 : SemSystem)
    (h : semStep s e = some s1) (hi : s.sem + insideCount s.reqs = K) :
    s1.sem + insideCount s1.reqs = K := by
  cases e with
  | acq j =>
    obtain ⟨hg, hsem, rfl⟩ := semStep_acq s j s1 h
    have hcnt := countP_set_add s.reqs j ReqPhase.inside ReqPhase.waiting
      (fun p => p == .inside) hg
    simp at hcnt
    show s.sem - 1 + insideCount (s.reqs.set j ReqPhase.inside) = K
    unfold insideCount at *
    omega
  | fin j =>
    obtain ⟨hg, rfl⟩ := semStep_fin s j s1 h
    have hcnt := countP_set_add s.reqs j ReqPhase.done ReqPhase.inside
      (fun p => p == .inside) hg
    simp at hcnt
    show s.sem + 1 + insideCount (s.reqs.set j ReqPhase.done) = K
    unfold insideCount at *
    omega

/-- A run preserves the permit-accounting invariant. -/
theorem semRun_inv (K : Nat) (evs : List SemEvent) :
    ∀ s s', semRun s evs = some s' → s.sem + insideCount s.reqs = K →
      s'.sem + insideCount s'.reqs = K := by
  induction evs with
  | nil =>
    intro s s' h hi
    obtain rfl : s = s' := by simpa [semRun] using h
    exact hi
  | cons e rest ih =>
    intro s s' h hi
    cases hs : semStep s e with
    | none => simp [semRun, hs] at h
    | some s1 =>
      have hrun : semRun s1 rest = some s' := by simpa [semRun, hs] using h
      exact ih s1 s' hrun (semStep_inv K s e s1 hs hi)

/-- Across a run, the number of releases performed by request `i` equals
the change of its done-indicator: it releases exactly once if it finished,
and never otherwise. -/
theorem semRun_relCount (evs : List SemEvent) :
    ∀ (s s' : SemSystem) (i : Nat), semRun s evs = some s' →
      relCount evs i + doneInd s i = doneInd s' i := by
  induction evs with
  | nil =>
    intro s s' i h
    obtain rfl : s = s' := by simpa [semRun] using h
    simp [relCount]
  | cons e rest ih =>
    intro s s' i h
    cases hs : semStep s e with
    | none => simp [semRun, hs] at h
    | some s1 =>
      have hrun : semRun s1 rest = some s' := by simpa [semRun, hs] using h
      have hih := ih s1 s' i hrun
      cases e with
      | acq j =>
        have hrel : relCount (SemEvent.acq j :: rest) i = relCount rest i := by
          simp [relCount, List.countP_cons]
        obtain ⟨hg, hsem, rfl⟩ := semStep_acq s j s1 hs
        have hlen : j < s.reqs.length := by
          by_cases hl : j < s.reqs.length
          · exact hl
          · rw [List.getElem?_eq_none (by omega)] at hg
            simp at hg
        have hdone : doneInd { sem := s.sem - 1, reqs := s.reqs.set j .inside } i =
            doneInd s i := by
          by_cases hij : i = j
          · subst hij
            unfold doneInd
            rw [List.getElem?_set_self hlen, hg]
            simp
          · unfold doneInd
            rw [List.getElem?_set_ne (by omega)]
        rw [hrel, ← hdone]
        exact hih
      | fin j =>
        obtain ⟨hg, rfl⟩ := semStep_fin s j s1 hs
        have hlen : j < s.reqs.length := by
          by_cases hl : j < s.reqs.length
          · exact hl
          · rw [List.getElem?_eq_none (by omega)] at hg
            simp at hg
        by_cases hij : i = j
        · subst hij
          have hrel : relCount (SemEvent.fin i :: rest) i = relCount rest i + 1 := by
            simp [relCount, List.countP_cons]
          have hd0 : doneInd s i = 0 := by
            unfold doneInd
            rw [hg]
            simp
          have hd1 : doneInd { sem := s.sem + 1, reqs := s.reqs.set i .done } i = 1 := by
            unfold doneInd
            rw [List.getElem?_set_self hlen]
            simp
          rw [hd1] at hih
          rw [hrel, hd0]
          omega
        · have hrel : relCount (SemEvent.fin j :: rest) i = relCount rest i := by
            simp [relCount, List.countP_cons, Ne.symm hij]
          have hdone : doneInd { sem := s.sem + 1, reqs := s.reqs.set j .done } i =
              doneInd s i := by
            unfold doneInd
            rw [List.getElem?_set_ne (by omega)]
          rw [hrel, ← hdone]
          exact hih

/-- No request starts inside the critical section. -/
theorem insideCount_replicate (M : Nat) :
    insideCount (List.replicate M .waiting) = 0 := by
  induction M with
  | zero => rfl
  | succ m ih =>
    rw [List.replicate_succ]
    unfold insideCount at *
    rw [List.countP_cons]
    simp [ih]

/-- C7: launching M requests against a family semaphore of capacity K,
every scheduler run keeps at most K requests inside the dispatcher's
critical section (the permit accounting `sem + inside = K` is invariant),
and every request releases its permit exactly once — precisely when it
exits the block — and never more. -/
theorem admission_bound (K M : Nat) (evs : List SemEvent) (s' : SemSystem)
    (h : semRun (initSystem K M) evs = some s') :
    insideCount s'.reqs ≤ K ∧
    s'.sem + insideCount s'.reqs = K ∧
    (∀ i, relCount evs i = doneInd s' i ∧ relCount evs i ≤ 1) := by
  have hinit : (initSystem K M).sem + insideCount (initSystem K M).reqs = K := by
    show K + insideCount (List.replicate M .waiting) = K
    rw [insideCount_replicate]
    omega
  have hinv := semRun_inv K evs (initSystem K M) s' h hinit
  refine ⟨by omega, hinv, ?_⟩
  intro i
  have hrel := semRun_relCount evs (initSystem K M) s' i h
  have hd0 : doneInd (initSystem K M) i = 0 := by
    unfold doneInd initSystem
    rw [List.getElem?_replicate]
    by_cases hi : i < M <;> simp [hi]
  rw [hd0] at hrel
  have hdle : doneInd s' i ≤ 1 := by
    unfold doneInd
    split <;> omega
  omega

/-- C7 witness: with K = 1 and M = 2, the schedule acquire-0, release-0,
acquire-1 runs to completion; at most one request is ever inside, and each
request has released exactly once iff it is done. -/
theorem admission_bound_witness :
    semRun (initSystem 1 2) wEvs = some { sem := 0, reqs := [.done, .inside] } ∧
    (insideCount ({ sem := 0, reqs := [.done, .inside] } : SemSystem).reqs ≤ 1 ∧
      ({ sem := 0, reqs := [.done, .inside] } : SemSystem).sem +
        insideCount ({ sem := 0, reqs := [.done, .inside] } : SemSystem).reqs = 1 ∧
      (∀ i, relCount wEvs i =
          doneInd { sem := 0, reqs := [.done, .inside] } i ∧
        relCount wEvs i ≤ 1)) :=
  ⟨rfl, admission_bound 1 2 wEvs { sem := 0, reqs := [.done, .inside] } rfl⟩

end DatabaseApi
